import Mathlib

/-!
Verification of the argcmdr command-tree / delegation / process-interpreter
core (`src/argcmdr.py`) against its natural-language specification.

The Python source is shallowly embedded as executable Lean definitions:

* the command hierarchy built by `Command._build_interface_` is represented
  by a definition tree `CmdDef` together with index paths into it: the build
  creates exactly one live command object per occurrence of a nested command
  definition, wires `_children_` as a name-keyed dict (later duplicate
  names overwrite earlier ones) and `_parents_` as the chain of ancestor
  objects nearest-parent first, so a live node is faithfully identified by
  the pair (definition tree, index path) and object identity by path
  equality;
* `Command.__getitem__` becomes `CmdNode.getItem`;
* `Command.delegate` becomes `delegateSelect` / `delegateCall` over an
  abstract contextual argument list and an `inspect.signature`-style
  parameter list;
* `Command.delegate_args` / `Command.args` become `delegate_args` /
  `effective_args` over association-list namespaces;
* `Local.__call__` and `Local._show_command_` become the fuel-indexed
  interpreter `localCall` (with `interpGenLoop` for generator producers and
  `interpListLoop` for static sequences), which records its observable
  actions (descriptors shown, process invocations attempted, values fed
  back into a resumable producer) as a trace of `Event`s; the plumbum
  process-invocation collaborator is abstracted by an `Oracle` supplying
  the outcome of each run, per the spec's external-interface boundary.
-/

namespace Argcmdr

/-! ## Command definitions and built tree (`Command._build_interface_`) -/

/-- A nested command definition: the derived (lower-cased) name together
with the nested sub-definitions, in declaration/registration order
(`Command._subcommands_`, extended by `RootCommand.register`). -/
inductive CmdDef : Type where
  | mk (name : String) (subs : List CmdDef)

def CmdDef.name : CmdDef → String
  | .mk n _ => n

def CmdDef.subs : CmdDef → List CmdDef
  | .mk _ s => s

/-- Descend through the definition tree along a path of child indices. -/
def CmdDef.descend : CmdDef → List Nat → Option CmdDef
  | d, [] => some d
  | d, i :: rest =>
    match d.subs.get? i with
    | some c => c.descend rest
    | none => none

/-- Index of the last sub-definition bearing a given derived name:
`_build_interface_` executes `chain[cls.name] = command` per subcommand in
order, so on duplicate names the dict retains the command built last. -/
def lastIndexNamed : List CmdDef → String → Option Nat
  | [], _ => none
  | c :: rest, nm =>
    match lastIndexNamed rest nm with
    | some i => some (i + 1)
    | none => if c.name = nm then some 0 else none

/-- A live command object produced by the tree build, identified by the
definition tree and the index path of the nested definition it was built
from.  Path equality is object identity: the build instantiates exactly one
command per nested definition occurrence. -/
structure CmdNode where
  tree : CmdDef
  path : List Nat

/-- The `_parents_` chain wired by `_build_interface_`
(`subparents = (command,) + parents`): ancestors nearest-parent first,
i.e. the proper prefixes of the node's path in decreasing length. -/
def ancChain : List Nat → List (List Nat)
  | [] => []
  | p :: rest => (p :: rest).dropLast :: ancChain ((p :: rest).dropLast)
termination_by p => p.length
decreasing_by simp [List.length_dropLast]

/-- The node's `_children_` values, i.e. the sub-definitions of the
definition this node was built from. -/
def CmdNode.children (n : CmdNode) : List CmdDef :=
  match n.tree.descend n.path with
  | some d => d.subs
  | none => []

/-- The node's derived `name`. -/
def CmdNode.name (n : CmdNode) : String :=
  match n.tree.descend n.path with
  | some d => d.name
  | none => ""

/-! ## Navigation (`Command.__getitem__`) -/

/-- One token of a lookup path: a string (descend by name), an integer
(ascend when negative), or a value of any other type. -/
inductive PathKey : Type where
  | str (s : String)
  | int (i : Int)
  | other
deriving DecidableEq

/-- The exceptions `__getitem__` may raise, with their identifying data:
`KeyError(f"command {self.name} has no child {head!r}")`,
`IndexError(f"command {self.name} has no parent {head!r}")`,
`ValueError(message % head)` for a non-negative integer, and
`TypeError(message % head)` for any other index type. -/
inductive LookupErr : Type where
  | keyError (cmd : String) (child : String)
  | indexError (cmd : String) (idx : Int)
  | valueError (idx : Int)
  | typeError
deriving DecidableEq

/-- `Command.__getitem__`: an empty path returns the node itself; a string
head descends into `self._get_children_().get(head)`; a negative integer
head `-k` looks up `self._get_parents_()[-1 - head]`, i.e. position
`k - 1` of the ancestor chain; a non-negative integer raises `ValueError`
and any other head raises `TypeError`; the remainder of the path is then
resolved against the found node. -/
def CmdNode.getItem (n : CmdNode) : List PathKey → Except LookupErr CmdNode
  | [] => .ok n
  | k :: rest =>
    match k with
    | .str s =>
      match lastIndexNamed n.children s with
      | some i => CmdNode.getItem ⟨n.tree, n.path ++ [i]⟩ rest
      | none => .error (.keyError n.name s)
    | .int i =>
      if 0 ≤ i then .error (.valueError i)
      else
        match (ancChain n.path).get? (-1 - i).toNat with
        | some p => CmdNode.getItem ⟨n.tree, p⟩ rest
        | none => .error (.indexError n.name i)
    | .other => .error .typeError

/-! ### Basic facts about the ancestor chain -/

theorem ancChain_length (p : List Nat) : (ancChain p).length = p.length := by
  induction p using ancChain.induct with
  | case1 => simp [ancChain]
  | case2 q rest ih =>
    rw [ancChain]
    simp only [List.length_cons, List.length_dropLast] at ih ⊢
    omega

theorem ancChain_cons_cons (a b : Nat) (rest : List Nat) :
    ancChain (a :: b :: rest) = (a :: b :: rest).dropLast :: ancChain ((a :: b :: rest).dropLast) := by
  rw [ancChain]

theorem ancChain_pair (a b : Nat) : ancChain [a, b] = [[a], []] := by
  rw [ancChain]
  simp [ancChain]

/-- C2: lookup of the empty path on any node returns that node itself; and
for a two-level descent by names `a` then `b` from the root, ascending by
`-2` from the resulting node returns the root node (in this embedding
nodes are identified by their index path, so path equality is object
identity). -/
theorem c2_empty_lookup_and_two_level_ascend (t : CmdDef) (n : CmdNode)
    (a b : String) (m : CmdNode) :
    n.getItem [] = .ok n ∧
    (CmdNode.getItem ⟨t, []⟩ [.str a, .str b] = .ok m →
      m.getItem [.int (-2)] = .ok ⟨t, []⟩) := by
  refine ⟨rfl, fun h => ?_⟩
  rw [CmdNode.getItem] at h
  split at h
  case h_2 => exact absurd h (by simp)
  case h_1 i hi =>
    rw [CmdNode.getItem] at h
    split at h
    case h_2 => exact absurd h (by simp)
    case h_1 j hj =>
      rw [CmdNode.getItem] at h
      simp only [Except.ok.injEq] at h
      subst h
      rw [CmdNode.getItem]
      norm_num [ancChain_pair]
      rw [CmdNode.getItem]

/-- C3: behaviour of `__getitem__` on each kind of head token: an unknown
child name raises `KeyError`; a negative integer whose magnitude exceeds
the ancestor-chain length raises `IndexError`; a non-negative integer
raises `ValueError`; any other token type raises `TypeError`; and an
in-range negative integer `-k` returns the `(k-1)`-th entry of the
ancestor chain, nearest parent first. -/
theorem c3_lookup_errors_and_ascend (n : CmdNode) (rest : List PathKey)
    (s : String) (i : Int) :
    (lastIndexNamed n.children s = none →
      n.getItem (.str s :: rest) = .error (.keyError n.name s)) ∧
    (i < 0 → n.path.length < i.natAbs →
      n.getItem (.int i :: rest) = .error (.indexError n.name i)) ∧
    (0 ≤ i → n.getItem (.int i :: rest) = .error (.valueError i)) ∧
    (n.getItem (.other :: rest) = .error .typeError) ∧
    (i < 0 → i.natAbs ≤ n.path.length →
      ∃ p, (ancChain n.path).get? (i.natAbs - 1) = some p ∧
        n.getItem [.int i] = .ok ⟨n.tree, p⟩) := by
  refine ⟨fun hnone => ?_, fun hneg hlen => ?_, fun hpos => ?_, ?_,
    fun hneg hle => ?_⟩
  · rw [CmdNode.getItem, hnone]
  · rw [CmdNode.getItem]
    rw [if_neg (by omega)]
    have htn : ((-1 : Int) - i).toNat = i.natAbs - 1 := by omega
    have : (ancChain n.path).get? ((-1 - i).toNat) = none := by
      rw [List.get?_eq_none, ancChain_length, htn]
      omega
    rw [this]
  · rw [CmdNode.getItem, if_pos hpos]
  · rw [CmdNode.getItem]
  · have htn : ((-1 : Int) - i).toNat = i.natAbs - 1 := by omega
    have hlt : i.natAbs - 1 < (ancChain n.path).length := by
      rw [ancChain_length]; omega
    refine ⟨(ancChain n.path).get ⟨i.natAbs - 1, hlt⟩, ?_, ?_⟩
    · exact List.get?_eq_get hlt
    · rw [CmdNode.getItem, if_neg (by omega), htn, List.get?_eq_get hlt]
      exact rfl

/-- A small concrete tree: root with child "a", grandchild "b". -/
def sampleTree : CmdDef := .mk "root" [.mk "a" [.mk "b" []]]

/-- Witness for C2 at the concrete tree `sampleTree`. -/
theorem c2_witness :
    CmdNode.getItem ⟨sampleTree, []⟩ [] = .ok ⟨sampleTree, []⟩ ∧
    CmdNode.getItem ⟨sampleTree, [0, 0]⟩ [.int (-2)] = .ok ⟨sampleTree, []⟩ :=
  ⟨(c2_empty_lookup_and_two_level_ascend sampleTree ⟨sampleTree, []⟩ "a" "b"
      ⟨sampleTree, [0, 0]⟩).1,
   (c2_empty_lookup_and_two_level_ascend sampleTree ⟨sampleTree, []⟩ "a" "b"
      ⟨sampleTree, [0, 0]⟩).2 rfl⟩

/-- Witness for C3 at the concrete tree `sampleTree`. -/
theorem c3_witness :
    (CmdNode.getItem ⟨sampleTree, [0, 0]⟩ [.str "zzz"] =
      .error (.keyError "b" "zzz")) ∧
    (CmdNode.getItem ⟨sampleTree, [0, 0]⟩ [.int (-5)] =
      .error (.indexError "b" (-5))) ∧
    (CmdNode.getItem ⟨sampleTree, [0, 0]⟩ [.int 0] =
      .error (.valueError 0)) ∧
    (CmdNode.getItem ⟨sampleTree, [0, 0]⟩ [.other] = .error .typeError) ∧
    (∃ p, (ancChain [0, 0]).get? 0 = some p ∧
      CmdNode.getItem ⟨sampleTree, [0, 0]⟩ [.int (-1)] = .ok ⟨sampleTree, p⟩) :=
  by
    refine
      ⟨(c3_lookup_errors_and_ascend ⟨sampleTree, [0, 0]⟩ [] "zzz" 0).1 rfl,
       (c3_lookup_errors_and_ascend ⟨sampleTree, [0, 0]⟩ [] "zzz" (-5)).2.1
         (by decide) (by decide),
       (c3_lookup_errors_and_ascend ⟨sampleTree, [0, 0]⟩ [] "zzz" 0).2.2.1
         (by decide),
       (c3_lookup_errors_and_ascend ⟨sampleTree, [0, 0]⟩ [] "zzz" 0).2.2.2.1,
       ?_⟩
    obtain ⟨p, hp1, hp2⟩ :=
      (c3_lookup_errors_and_ascend ⟨sampleTree, [0, 0]⟩ [] "zzz" (-1)).2.2.2.2
        (by decide) (by decide)
    exact ⟨p, by simpa using hp1, by simpa using hp2⟩

/-! ## Delegation (`Command.delegate`) -/

/-- One declared parameter of a target routine as seen through
`inspect.signature`: its name and whether it declares a default
(`param.default is not param.empty`). -/
structure Param where
  name : String
  hasDefault : Bool
deriving DecidableEq

/-- The parameter selection of `Command.delegate`:
`[name for (index, (name, param)) in enumerate(signature.parameters.items())
  if index < call_arg_count or param.default is param.empty]`,
written as a recursion on the parameter list with the remaining count of
leading indices below `call_arg_count`. -/
def selectedParams : List Param → Nat → List Param
  | [], _ => []
  | p :: ps, 0 =>
    if p.hasDefault then selectedParams ps 0 else p :: selectedParams ps 0
  | p :: ps, c + 1 => p :: selectedParams ps c

/-- `Command.delegate` with the routine's invocation abstracted: the
contextual list is `call_args = (nspace, nspace._parser_) + additional`
(for `Local`, additionally the process-invocation helper); if more
parameters are selected than context items exist, a `TypeError` naming
`parameters[call_arg_count:]` is raised, else the prefix
`call_args[:param_count]` is produced for the call. -/
def delegateSelect (callArgs : List α) (params : List Param) :
    Except (List String) (List α) :=
  let parameters := selectedParams params callArgs.length
  if parameters.length > callArgs.length then
    .error ((parameters.drop callArgs.length).map Param.name)
  else
    .ok (callArgs.take parameters.length)

/-- `Command.delegate`, returning the routine's value: the routine is
applied only on the success branch of `delegateSelect`. -/
def delegateCall (callArgs : List α) (params : List Param)
    (routine : List α → β) : Except (List String) β :=
  (delegateSelect callArgs params).map routine

/-- The routine's required (non-defaulted) parameters. -/
def requiredParams (params : List Param) : List Param :=
  params.filter (fun p => !p.hasDefault)

/-- Python's positional-parameter rule: a parameter with a default is
followed only by parameters with defaults (holds for every signature
whose parameters can all be passed positionally, as `delegate` does). -/
def ReqBeforeOpt : List Param → Prop
  | [] => True
  | p :: ps => (p.hasDefault = true → ∀ q ∈ ps, q.hasDefault = true) ∧
      ReqBeforeOpt ps

theorem selectedParams_eq (params : List Param) (c : Nat) :
    selectedParams params c =
      params.take c ++ (params.drop c).filter (fun p => !p.hasDefault) := by
  induction params generalizing c with
  | nil => simp [selectedParams]
  | cons p ps ih =>
    cases c with
    | zero =>
      rw [selectedParams]
      by_cases hp : p.hasDefault <;> simp [hp, ih 0]
    | succ c => simp [selectedParams, ih c]

theorem filter_drop_comm (params : List Param) (c : Nat)
    (hsorted : ReqBeforeOpt params) :
    (params.drop c).filter (fun p => !p.hasDefault) =
      (params.filter (fun p => !p.hasDefault)).drop c := by
  induction params generalizing c with
  | nil => simp
  | cons p ps ih =>
    cases c with
    | zero => simp
    | succ c =>
      obtain ⟨hhead, htail⟩ := hsorted
      by_cases hp : p.hasDefault
      · have hall : ∀ q ∈ ps, q.hasDefault = true := hhead hp
        have h1 : (ps.drop c).filter (fun p => !p.hasDefault) = [] := by
          rw [List.filter_eq_nil_iff]
          intro a ha
          simp [hall a (List.drop_subset c ps ha)]
        have h2 : ps.filter (fun p => !p.hasDefault) = [] := by
          rw [List.filter_eq_nil_iff]
          intro a ha
          simp [hall a ha]
        simp [hp, h1, h2]
      · simp only [List.drop_succ_cons, List.filter_cons, hp,
          Bool.not_false, if_true, List.drop_succ_cons]
        simp only [Bool.not_eq_true] at hp
        simp [hp, ih c htail]

/-- C1: under the positional rule, if the routine declares more required
(non-defaulted) parameters than the contextual argument list provides,
`delegate` raises a `TypeError` naming exactly the excess required
parameters and never invokes the routine (the outcome is the same for
every routine); otherwise it calls the routine with exactly the prefix of
the contextual list whose length is the number of selected parameters. -/
theorem c1_delegate_arity (callArgs : List α) (params : List Param)
    (routine : List α → β) (hsorted : ReqBeforeOpt params) :
    ((requiredParams params).length > callArgs.length →
      ∀ g : List α → β, delegateCall callArgs params g =
        .error (((requiredParams params).drop callArgs.length).map
          Param.name)) ∧
    ((requiredParams params).length ≤ callArgs.length →
      delegateCall callArgs params routine =
        .ok (routine
          (callArgs.take (selectedParams params callArgs.length).length))) := by
  have hsel := selectedParams_eq params callArgs.length
  have hcomm := filter_drop_comm params callArgs.length hsorted
  constructor
  · intro hgt g
    have hlenp : callArgs.length < params.length := by
      have := List.length_filter_le (fun p => !p.hasDefault) params
      unfold requiredParams at hgt
      omega
    have hlen : (selectedParams params callArgs.length).length >
        callArgs.length := by
      rw [hsel]
      rw [List.length_append, List.length_take]
      have hd : ((params.drop callArgs.length).filter
          (fun p => !p.hasDefault)).length =
          (requiredParams params).length - callArgs.length := by
        rw [hcomm, List.length_drop]; rfl
      omega
    have hds : delegateSelect callArgs params =
        .error (((requiredParams params).drop callArgs.length).map
          Param.name) := by
      unfold delegateSelect
      rw [if_pos hlen]
      congr 1
      rw [hsel, List.drop_append_eq_append_drop, List.length_take]
      have htk : callArgs.length - min callArgs.length params.length = 0 := by
        omega
      rw [htk, List.drop_take]
      simp only [Nat.sub_self, List.take_zero, List.nil_append]
      rw [hcomm]
      rfl
    unfold delegateCall
    rw [hds]
    rfl
  · intro hle
    have hlen : ¬ ((selectedParams params callArgs.length).length >
        callArgs.length) := by
      rw [hsel, List.length_append, List.length_take]
      have hd : ((params.drop callArgs.length).filter
          (fun p => !p.hasDefault)).length =
          (requiredParams params).length - callArgs.length := by
        rw [hcomm, List.length_drop]; rfl
      by_cases hc : params.length ≤ callArgs.length
      · have hdrop : (params.drop callArgs.length) = [] := by
          rw [List.drop_eq_nil_iff]; exact hc
        simp only [hdrop, List.filter_nil, List.length_nil]
        omega
      · omega
    unfold delegateCall delegateSelect
    rw [if_neg hlen]
    rfl

/-- Witness for C1: a three-required-parameter routine against a
two-element contextual list fails naming `lang`; with `lang` defaulted the
routine is called on the full two-element prefix. -/
theorem c1_witness :
    delegateCall [10, 20] [⟨"args", false⟩, ⟨"parser", false⟩,
        ⟨"lang", false⟩] (fun l => l.length) = .error ["lang"] ∧
    delegateCall [10, 20] [⟨"args", false⟩, ⟨"parser", false⟩,
        ⟨"lang", true⟩] (fun l => l.length) = .ok 2 :=
  ⟨(c1_delegate_arity [10, 20]
      [⟨"args", false⟩, ⟨"parser", false⟩, ⟨"lang", false⟩]
      (fun l => l.length) (by simp [ReqBeforeOpt])).1 (by decide) _,
   (c1_delegate_arity [10, 20]
      [⟨"args", false⟩, ⟨"parser", false⟩, ⟨"lang", true⟩]
      (fun l => l.length) (by simp [ReqBeforeOpt])).2 (by decide)⟩

/-! ## Shared namespace and delegate view
(`Command.delegate_args`, `Command.args`) -/

/-- An `argparse.Namespace.__dict__`, modelled as an ordered association
list; lookup finds the first binding of a key. -/
abbrev NS (V : Type) := List (String × V)

def nsGet {V : Type} (ns : NS V) (k : String) : Option V :=
  (ns.find? (fun kv => kv.1 == k)).map (fun kv => kv.2)

/-- `dict.setdefault(key, value)`: bind the key to the value only if the
key is absent; an existing binding is kept. -/
def setdefault {V : Type} (ns : NS V) (k : String) (v : V) : NS V :=
  if (nsGet ns k).isSome then ns else ns ++ [(k, v)]

/-- `Command.delegate_args`: a shallow copy of the shared namespace into
which `args.__dict__.setdefault(action.dest, action.default)` is applied
for each action of the node's own parser, and then
`args.__dict__.setdefault(*default)` for each entry of the parser's
`_defaults` (the `_parser_` reattachment is outside the option-value
record modelled here). -/
def delegate_args {V : Type} (shared : NS V)
    (actions parserDefaults : List (String × V)) : NS V :=
  parserDefaults.foldl (fun a kv => setdefault a kv.1 kv.2)
    (actions.foldl (fun a kv => setdefault a kv.1 kv.2) shared)

/-- `Command.args`: the shared namespace when this node is the
CLI-invoked command (`args._command_ is self`), otherwise the node's
delegate view. -/
def effective_args {V : Type} (isInvoked : Bool) (shared delegateView : NS V) :
    NS V :=
  if isInvoked then shared else delegateView

/-- Modelled from the spec: the `cachedproperty` descriptor used for
`delegate_args` comes from the external `descriptors` package (absent
from src/); per the spec the delegate view is "computed once, cached":
the first access computes and stores the value and every later access
returns the stored object. -/
def cachedAccess {A : Type} (compute : Unit → A) : Option A → A × Option A
  | some v => (v, some v)
  | none => (compute (), some (compute ()))

theorem nsGet_append_single_of_some {V : Type} (ns : NS V) (k k2 : String)
    (v v2 : V) (h : nsGet ns k = some v) :
    nsGet (ns ++ [(k2, v2)]) k = some v := by
  unfold nsGet at h ⊢
  rw [List.find?_append]
  cases hf : ns.find? (fun kv => kv.1 == k) with
  | none => rw [hf] at h; simp at h
  | some kv => rw [hf] at h; simpa using h

theorem nsGet_append_single_of_none {V : Type} (ns : NS V) (k k2 : String)
    (v2 : V) (h : nsGet ns k = none) :
    nsGet (ns ++ [(k2, v2)]) k = if k2 == k then some v2 else none := by
  unfold nsGet at h ⊢
  rw [List.find?_append]
  cases hf : ns.find? (fun kv => kv.1 == k) with
  | none => by_cases hk : k2 == k <;> simp [List.find?, hk]
  | some kv => rw [hf] at h; simp at h

theorem setdefault_preserves {V : Type} (ns : NS V) (k k2 : String)
    (v : V) (v2 : V) (h : nsGet ns k = some v) :
    nsGet (setdefault ns k2 v2) k = some v := by
  unfold setdefault
  split
  · exact h
  · exact nsGet_append_single_of_some ns k k2 v v2 h

theorem foldl_setdefault_preserves {V : Type} (kvs : List (String × V))
    (ns : NS V) (k : String) (v : V) (h : nsGet ns k = some v) :
    nsGet (kvs.foldl (fun a kv => setdefault a kv.1 kv.2) ns) k = some v := by
  induction kvs generalizing ns with
  | nil => exact h
  | cons kv rest ih =>
    exact ih _ (setdefault_preserves ns k kv.1 v kv.2 h)

theorem foldl_setdefault_absent {V : Type} (kvs : List (String × V))
    (ns : NS V) (k : String) (h : nsGet ns k = none) :
    nsGet (kvs.foldl (fun a kv => setdefault a kv.1 kv.2) ns) k =
      nsGet kvs k := by
  induction kvs generalizing ns with
  | nil => exact h
  | cons kv rest ih =>
    rw [List.foldl_cons]
    by_cases hk : kv.1 == k
    · have hset : nsGet (setdefault ns kv.1 kv.2) k = some kv.2 := by
        unfold setdefault
        have hn1 : nsGet ns kv.1 = none := by
          have hkeq : kv.1 = k := by simpa using hk
          rw [hkeq]; exact h
        rw [hn1]
        simp only [Option.isSome_none, Bool.false_eq_true, if_false]
        rw [nsGet_append_single_of_none ns k kv.1 kv.2 h, if_pos hk]
      rw [foldl_setdefault_preserves rest _ k kv.2 hset]
      unfold nsGet
      simp [List.find?, hk]
    · have hset : nsGet (setdefault ns kv.1 kv.2) k = none := by
        unfold setdefault
        split
        · exact h
        · rw [nsGet_append_single_of_none ns k kv.1 kv.2 h, if_neg hk]
      rw [ih _ hset]
      unfold nsGet
      simp [List.find?, hk]

/-- C6: for a node that is not the CLI-invoked command, the effective
arguments are the delegate view; the view keeps the shared value of every
key already bound in the shared namespace and binds the node's own
defaults (actions first, then parser `_defaults`, first declaration wins)
only for keys the shared namespace lacks — the shared namespace itself is
never written; and the view is computed once: every access after the
first returns the same cached object without recomputation. -/
theorem c6_delegate_view {V A : Type} (shared : NS V)
    (actions parserDefaults : List (String × V)) (compute : Unit → A) :
    (effective_args false shared
        (delegate_args shared actions parserDefaults) =
      delegate_args shared actions parserDefaults) ∧
    (∀ k v, nsGet shared k = some v →
      nsGet (delegate_args shared actions parserDefaults) k = some v) ∧
    (∀ k, nsGet shared k = none →
      nsGet (delegate_args shared actions parserDefaults) k =
        nsGet (actions ++ parserDefaults) k) ∧
    (cachedAccess compute (cachedAccess compute none).2 =
      cachedAccess compute none) := by
  refine ⟨rfl, fun k v h => ?_, fun k h => ?_, rfl⟩
  · exact foldl_setdefault_preserves _ _ _ _
      (foldl_setdefault_preserves _ _ _ _ h)
  · unfold delegate_args
    by_cases ha : nsGet actions k = none
    · rw [foldl_setdefault_absent _ _ _ (by rw [foldl_setdefault_absent _ _ _ h, ha])]
      unfold nsGet at ha ⊢
      rw [List.find?_append]
      simp only [Option.map_eq_none'] at ha
      rw [ha]
      rfl
    · obtain ⟨v, hv⟩ := Option.ne_none_iff_exists'.mp ha
      have hfold : nsGet (actions.foldl (fun a kv => setdefault a kv.1 kv.2)
          shared) k = some v := by
        rw [foldl_setdefault_absent _ _ _ h]; exact hv
      rw [foldl_setdefault_preserves _ _ _ _ hfold]
      unfold nsGet at hv ⊢
      rw [List.find?_append]
      simp only [Option.map_eq_some'] at hv
      obtain ⟨kv, hkv1, hkv2⟩ := hv
      rw [hkv1]
      simp [hkv2]

/-- Witness for C6 at a concrete shared namespace and defaults. -/
theorem c6_witness :
    nsGet (delegate_args [("should_eat", 1)] [("this_food", 7)] [])
        "should_eat" = some 1 ∧
    nsGet (delegate_args [("should_eat", 1)] [("this_food", 7)] [])
        "this_food" = some 7 :=
  ⟨(c6_delegate_view [("should_eat", 1)] [("this_food", 7)] []
      (fun _ => (0 : Nat))).2.1 "should_eat" 1 rfl,
   by
    have h := (c6_delegate_view [("should_eat", 1)] [("this_food", 7)] []
      (fun _ => (0 : Nat))).2.2.1 "this_food" rfl
    simpa using h⟩

/-! ## Process execution interpreter
(`Local.__call__`, `Local._show_command_`) -/

/-- The closed set of execution modifiers exposed on `Local.local`:
plumbum's `FG`, `BG`, `TEE`, and argcmdr's own `SHH`. -/
inductive Modifier : Type where
  | fg
  | bg
  | tee
  | shh
deriving DecidableEq

/-- Exceptions arising inside the interpreter loop. -/
inductive Exc : Type where
  | processError (n : Nat)
  | typeError
  | valueError
  | userError (n : Nat)
deriving DecidableEq

/-- Python values flowing through the interpreter: `None`, integers,
process descriptors (plumbum `BaseCommand`s, named by id), execution
modifiers, tuples/lists, and `Future` handles as returned by `BG`. -/
inductive Val : Type where
  | noneV
  | intV (i : Int)
  | desc (id : Nat)
  | modV (m : Modifier)
  | tup (xs : List Val)
  | futureV (id : Nat)

/-- `empty_result = (None, None, None)`. -/
def emptyResult : Val := .tup [.noneV, .noneV, .noneV]

/-- Inputs with which the interpreter resumes a producer:
`next(iterator)`, `iterator.send(result)`, `iterator.throw(thrown)`. -/
inductive GenInput : Type where
  | nxt
  | send (v : Val)
  | throw (e : Exc)

/-- A generator response: yield a value in a new state, finish normally
(`StopIteration`), or let an exception escape (including re-raising a
thrown one). -/
inductive GenOut (σ : Type) : Type where
  | yielded (v : Val) (s : σ)
  | stopped
  | raised (e : Exc)

/-- A generator (resumable producer): start state plus transition. -/
structure GenM (σ : Type) where
  start : σ
  step : σ → GenInput → GenOut σ

/-- The value returned by the delegated `prepare` routine: a plain value
or a generator (only the latter `hasattr(commands, 'send')`). -/
inductive Prepared (σ : Type) : Type where
  | value (v : Val)
  | gen (g : GenM σ)

/-- The per-invocation CLI flags consulted by the interpreter
(`Local._new_parser_`: `-q`/`--quiet` stores False into `foreground`,
`-d`/`--dry-run` stores False into `execute_commands`, and `-s`/`--show`
and `--no-show` store True/False into `show_commands`, default `None`). -/
structure LocalArgs where
  execute_commands : Bool
  foreground : Bool
  show_commands : Option Bool

/-- The external process-invocation collaborator (plumbum), abstracted at
the interface boundary the spec assigns it: the outcome of
`command & modifier(**run_kwargs)` / `command & modifier`, of
`command & plumbum.TEE(**run_kwargs)`, and of `command.run(**run_kwargs)`
for each descriptor. -/
structure Oracle where
  runMod : Nat → Modifier → Bool → Except Exc Val
  runTee : Nat → Except Exc Val
  runRun : Nat → Except Exc Val

/-- Observable actions of one interpreter run. -/
inductive Event : Type where
  | showed (v : Val)
  | ranMod (m : Modifier) (d : Nat) (withKws : Bool)
  | ranTee (d : Nat)
  | ranRun (d : Nat)
  | fed (inp : GenInput)

def Event.isShow : Event → Bool
  | .showed _ => true
  | _ => false

def Event.isRun : Event → Bool
  | .ranMod _ _ _ => true
  | .ranTee _ => true
  | .ranRun _ => true
  | _ => false

def Event.fedInput : Event → Option GenInput
  | .fed i => some i
  | _ => none

/-- The printing guard of `Local._show_command_`: `force or
self.args.show_commands or (self.args.show_commands is None and not
self.args.execute_commands)` — `show_commands` is `True`, `False` or
`None`, and only `True` is truthy.  `Local.__call__` calls it without
`force`. -/
def showCommands (args : LocalArgs) (force : Bool) : Bool :=
  force || args.show_commands == some true ||
    (args.show_commands == none && !args.execute_commands)

/-- Per-step unpacking `(modifier, command) = command`, applied to every
tuple/list step (a tuple of length other than two fails unpacking with a
`ValueError`); a non-tuple step keeps the initial `modifier = None`.
The only subsequent test on the unpacked value is `modifier is not
None`, so a pair whose first element is `None` is indistinguishable from
a bare step: both are represented as `none` here, and any other first
element as `some`. -/
def unpackItem : Val → Except Exc (Option Val × Val)
  | .tup [.noneV, b] => .ok (none, b)
  | .tup [a, b] => .ok (some a, b)
  | .tup _ => .error .valueError
  | v => .ok (none, v)

/-- Continuation state after one step: the loop continues with updated
`result`/`thrown`, or an exception escapes `Local.__call__`. -/
inductive StepOut : Type where
  | cont (result : Option Val) (thrown : Option Exc)
  | halt (e : Exc)

/-- The execution of one non-dry step.  When `modifier is not None`
(`some`): `command & modifier(**run_kwargs)` when `run_kwargs` is
non-empty, else `command & modifier`, a `None` result becoming
`empty_result`; the `&` against a value that is not an execution
modifier, or with a non-descriptor left operand, raises a `TypeError`.
When `modifier` is `None`: `command & plumbum.TEE(**run_kwargs)` under
`foreground`, else `command.run(**run_kwargs)`. -/
def runStep (o : Oracle) (args : LocalArgs) (withKws : Bool)
    (modifier : Option Val) (command : Val) : List Event × Except Exc Val :=
  match modifier, command with
  | some (.modV m), .desc d =>
    ([Event.ranMod m d withKws],
      match o.runMod d m withKws with
      | .ok .noneV => .ok emptyResult
      | r => r)
  | some _, _ => ([], .error .typeError)
  | none, .desc d =>
    if args.foreground then ([Event.ranTee d], o.runTee d)
    else ([Event.ranRun d], o.runRun d)
  | none, _ => ([], .error .typeError)

/-- One iteration body of the `Local.__call__` while-loop once a step has
been obtained: unpack, `_show_command_`, then — unless dry-run — run the
step (`runStep`); an exception is re-raised when the producer has no
`send`, else recorded as `thrown` for injection at the next resumption.
In dry-run nothing runs and the result is `empty_result` (`thrown` is
left as it was). -/
def processStep (o : Oracle) (args : LocalArgs) (withKws send : Bool)
    (item : Val) (thrown0 : Option Exc) : List Event × StepOut :=
  match unpackItem item with
  | .error e => ([], .halt e)
  | .ok (modifier, command) =>
    let evShow :=
      if showCommands args false then [Event.showed command] else []
    if args.execute_commands then
      match runStep o args withKws modifier command with
      | (evs, .ok r) => (evShow ++ evs, .cont (some r) none)
      | (evs, .error e) =>
        if send then (evShow ++ evs, .cont none (some e))
        else (evShow ++ evs, .halt e)
    else
      (evShow, .cont (some emptyResult) thrown0)

/-- Outcome of an interpreter run: normal completion (`StopIteration`
broke the loop), a propagated exception, or exhausted fuel (a model
artefact that allows unbounded producers). -/
inductive RunOutcome : Type where
  | done
  | failed (e : Exc)
  | fuelOut

/-- An interpreter run: its observable trace and how it ended. -/
structure InterpRes where
  events : List Event
  outcome : RunOutcome

/-- Selection of how the producer is resumed (`if send and result is not
None: ... send(result); elif send and thrown is not None: ...
throw(thrown); else: next(iterator)`, for a producer with `send`). -/
def nextInput (result : Option Val) (thrown : Option Exc) : GenInput :=
  match result, thrown with
  | some r, _ => .send r
  | none, some e => .throw e
  | none, none => .nxt

/-- The `Local.__call__` while-loop for a generator producer (`send`
present): the producer is resumed per `nextInput`; `StopIteration` breaks
the loop, any other exception out of the producer propagates. -/
def interpGenLoop {σ : Type} (o : Oracle) (args : LocalArgs)
    (withKws : Bool) (g : GenM σ) :
    Nat → σ → Option Val → Option Exc → InterpRes
  | 0, _, _, _ => ⟨[], .fuelOut⟩
  | fuel + 1, s, result, thrown =>
    match g.step s (nextInput result thrown) with
    | .stopped => ⟨[.fed (nextInput result thrown)], .done⟩
    | .raised e => ⟨[.fed (nextInput result thrown)], .failed e⟩
    | .yielded v s2 =>
      match processStep o args withKws true v thrown with
      | (evs, .halt e) =>
        ⟨.fed (nextInput result thrown) :: evs, .failed e⟩
      | (evs, .cont r t) =>
        ⟨.fed (nextInput result thrown) ::
          (evs ++ (interpGenLoop o args withKws g fuel s2 r t).events),
          (interpGenLoop o args withKws g fuel s2 r t).outcome⟩

/-- The `Local.__call__` while-loop over a static sequence (no `send`):
items are processed in order; an execution failure re-raises immediately,
abandoning the remaining items. -/
def interpListLoop (o : Oracle) (args : LocalArgs) (withKws : Bool) :
    List Val → InterpRes
  | [] => ⟨[], .done⟩
  | v :: rest =>
    match processStep o args withKws false v none with
    | (evs, .halt e) => ⟨evs, .failed e⟩
    | (evs, .cont _ _) =>
      ⟨evs ++ (interpListLoop o args withKws rest).events,
        (interpListLoop o args withKws rest).outcome⟩

/-- `Local.__call__`: obtain `commands = self.delegate()`; `None` returns
immediately; a single `BaseCommand`, or a two-element tuple/list whose
first element is an `ExecutionModifier` instance, is wrapped as a
one-step sequence `(commands,)`; other tuples/lists iterate their items;
generators are driven with `send`; any other return value is not
iterable. -/
def localCall (σ : Type) (o : Oracle) (args : LocalArgs) (withKws : Bool)
    (p : Prepared σ) (fuel : Nat) : InterpRes :=
  match p with
  | .gen g => interpGenLoop o args withKws g fuel g.start none none
  | .value .noneV => ⟨[], .done⟩
  | .value (.desc d) => interpListLoop o args withKws [.desc d]
  | .value (.tup [.modV m, b]) =>
    interpListLoop o args withKws [.tup [.modV m, b]]
  | .value (.tup xs) => interpListLoop o args withKws xs
  | .value _ => ⟨[], .failed .typeError⟩

/-! ### Structural facts about the interpreter -/

theorem interpGenLoop_stopped {σ : Type} (o : Oracle) (args : LocalArgs)
    (withKws : Bool) (g : GenM σ) (fuel : Nat) (s : σ) (r : Option Val)
    (t : Option Exc) (hstep : g.step s (nextInput r t) = .stopped) :
    interpGenLoop o args withKws g (fuel + 1) s r t =
      ⟨[.fed (nextInput r t)], .done⟩ := by
  rw [interpGenLoop, hstep]

theorem interpGenLoop_raised {σ : Type} (o : Oracle) (args : LocalArgs)
    (withKws : Bool) (g : GenM σ) (fuel : Nat) (s : σ) (r : Option Val)
    (t : Option Exc) (e : Exc)
    (hstep : g.step s (nextInput r t) = .raised e) :
    interpGenLoop o args withKws g (fuel + 1) s r t =
      ⟨[.fed (nextInput r t)], .failed e⟩ := by
  rw [interpGenLoop, hstep]

theorem interpGenLoop_yielded {σ : Type} (o : Oracle) (args : LocalArgs)
    (withKws : Bool) (g : GenM σ) (fuel : Nat) (s : σ) (r : Option Val)
    (t : Option Exc) (v : Val) (s2 : σ)
    (hstep : g.step s (nextInput r t) = .yielded v s2) :
    interpGenLoop o args withKws g (fuel + 1) s r t =
      match processStep o args withKws true v t with
      | (evs, .halt e) => ⟨.fed (nextInput r t) :: evs, .failed e⟩
      | (evs, .cont rr tt) =>
        ⟨.fed (nextInput r t) ::
          (evs ++ (interpGenLoop o args withKws g fuel s2 rr tt).events),
          (interpGenLoop o args withKws g fuel s2 rr tt).outcome⟩ := by
  rw [interpGenLoop, hstep]

theorem runStep_no_show (o : Oracle) (args : LocalArgs) (withKws : Bool)
    (modifier : Option Val) (command : Val) :
    ((runStep o args withKws modifier command).1.all
      (fun e => !e.isShow)) = true := by
  unfold runStep
  split
  · rfl
  · rfl
  · split <;> rfl
  · rfl

theorem runStep_no_fed (o : Oracle) (args : LocalArgs) (withKws : Bool)
    (modifier : Option Val) (command : Val) :
    ((runStep o args withKws modifier command).1.filterMap
      Event.fedInput) = [] := by
  unfold runStep
  split
  · rfl
  · rfl
  · split <;> rfl
  · rfl

theorem processStep_eq (o : Oracle) (args : LocalArgs) (withKws send : Bool)
    (item : Val) (thrown : Option Exc) (modifier : Option Val)
    (command : Val) (hunpack : unpackItem item = .ok (modifier, command)) :
    processStep o args withKws send item thrown =
      if args.execute_commands then
        match runStep o args withKws modifier command with
        | (evs, .ok r) =>
          ((if showCommands args false then [Event.showed command] else [])
            ++ evs, .cont (some r) none)
        | (evs, .error e) =>
          if send then
            ((if showCommands args false then [Event.showed command] else [])
              ++ evs, .cont none (some e))
          else
            ((if showCommands args false then [Event.showed command] else [])
              ++ evs, .halt e)
      else
        ((if showCommands args false then [Event.showed command] else []),
          .cont (some emptyResult) thrown) := by
  unfold processStep
  rw [hunpack]

/-- The trace of one successfully-unpacked step: the show line (if any)
followed by the run events (if not dry). -/
theorem processStep_events_eq (o : Oracle) (args : LocalArgs)
    (withKws send : Bool) (item : Val) (thrown : Option Exc)
    (modifier : Option Val) (command : Val)
    (hunpack : unpackItem item = .ok (modifier, command)) :
    (processStep o args withKws send item thrown).1 =
      (if showCommands args false then [Event.showed command] else []) ++
        (if args.execute_commands then
          (runStep o args withKws modifier command).1 else []) := by
  rw [processStep_eq o args withKws send item thrown modifier command
    hunpack]
  by_cases he : args.execute_commands
  · rw [if_pos he, if_pos he]
    cases hr : runStep o args withKws modifier command with
    | mk evs r =>
      cases r with
      | ok v => rfl
      | error e => cases send <;> rfl
  · rw [if_neg he, if_neg he]
    simp

/-- The continuation of one successfully-unpacked step. -/
theorem processStep_out_eq (o : Oracle) (args : LocalArgs)
    (withKws send : Bool) (item : Val) (thrown : Option Exc)
    (modifier : Option Val) (command : Val)
    (hunpack : unpackItem item = .ok (modifier, command)) :
    (processStep o args withKws send item thrown).2 =
      if args.execute_commands then
        match (runStep o args withKws modifier command).2 with
        | .ok r => .cont (some r) none
        | .error e => if send then .cont none (some e) else .halt e
      else .cont (some emptyResult) thrown := by
  rw [processStep_eq o args withKws send item thrown modifier command
    hunpack]
  by_cases he : args.execute_commands
  · rw [if_pos he, if_pos he]
    cases hr : runStep o args withKws modifier command with
    | mk evs r =>
      cases r with
      | ok v => rfl
      | error e => cases send <;> rfl
  · rw [if_neg he, if_neg he]

theorem processStep_dry_eq (o : Oracle) (args : LocalArgs)
    (withKws send : Bool) (item : Val) (thrown : Option Exc)
    (modifier : Option Val) (command : Val)
    (hunpack : unpackItem item = .ok (modifier, command))
    (hdry : args.execute_commands = false) :
    processStep o args withKws send item thrown =
      ((if showCommands args false then [Event.showed command] else []),
        .cont (some emptyResult) thrown) := by
  rw [processStep_eq o args withKws send item thrown modifier command hunpack,
    hdry]
  rfl

/-- In dry-run, a step never produces a run event, never produces a fed
event of its own, and — when the loop continues — always continues with
`result = empty_result`. -/
theorem processStep_dry_shape (o : Oracle) (args : LocalArgs)
    (withKws send : Bool) (item : Val) (thrown : Option Exc)
    (hdry : args.execute_commands = false) :
    ((processStep o args withKws send item thrown).1.all
      (fun e => !e.isRun)) = true ∧
    ((processStep o args withKws send item thrown).1.filterMap
      Event.fedInput) = [] ∧
    (∀ evs r t, processStep o args withKws send item thrown =
      (evs, .cont r t) → r = some emptyResult) := by
  cases hu : unpackItem item with
  | error e =>
    unfold processStep
    rw [hu]
    exact ⟨rfl, rfl, fun evs r t h => by simp at h⟩
  | ok mc =>
    obtain ⟨modifier, command⟩ := mc
    rw [processStep_dry_eq o args withKws send item thrown modifier command
      hu hdry]
    refine ⟨?_, ?_, fun evs r t h => ?_⟩
    · by_cases hs : showCommands args false <;>
        simp [hs, Event.isRun]
    · by_cases hs : showCommands args false <;>
        simp [hs, Event.fedInput]
    · simp only [Prod.mk.injEq, StepOut.cont.injEq] at h
      exact h.2.1.symm

/-- C10: a `prepare` routine returning `None` makes `Local.__call__`
return immediately: no descriptor is shown, no process is run, and no
error is raised. -/
theorem c10_none_return (σ : Type) (o : Oracle) (args : LocalArgs)
    (withKws : Bool) (fuel : Nat) :
    localCall σ o args withKws (.value .noneV) fuel = ⟨[], .done⟩ := rfl

/-- A step value a producer may legitimately yield: any non-tuple, or a
two-element tuple (longer/shorter tuples fail Python unpacking). -/
def WellFormedStep : Val → Prop
  | .tup xs => xs.length = 2
  | _ => True

/-- C7: for any step, the interpreter prints the process descriptor's
human-readable form exactly when the show flag is explicitly True, or is
unset (None) while dry-run is active; an explicitly False show flag
suppresses printing regardless of dry-run. -/
theorem c7_show_guard (o : Oracle) (args : LocalArgs) (withKws send : Bool)
    (item : Val) (thrown : Option Exc) (h : WellFormedStep item) :
    ((processStep o args withKws send item thrown).1.any Event.isShow =
      showCommands args false) ∧
    (showCommands args false = true ↔
      (args.show_commands = some true ∨
        (args.show_commands = none ∧ args.execute_commands = false))) := by
  constructor
  · have hmc : ∃ modifier command,
        unpackItem item = .ok (modifier, command) := by
      cases item with
      | tup xs =>
        match xs, h with
        | [a, b], _ =>
          cases a with
          | noneV => exact ⟨none, b, rfl⟩
          | intV i => exact ⟨some (.intV i), b, rfl⟩
          | desc dd => exact ⟨some (.desc dd), b, rfl⟩
          | modV m2 => exact ⟨some (.modV m2), b, rfl⟩
          | tup ys => exact ⟨some (.tup ys), b, rfl⟩
          | futureV i => exact ⟨some (.futureV i), b, rfl⟩
      | noneV => exact ⟨none, _, rfl⟩
      | intV i => exact ⟨none, _, rfl⟩
      | desc d => exact ⟨none, _, rfl⟩
      | modV m => exact ⟨none, _, rfl⟩
      | futureV i => exact ⟨none, _, rfl⟩
    obtain ⟨modifier, command, hu⟩ := hmc
    rw [processStep_events_eq o args withKws send item thrown modifier
      command hu]
    have hany : ((if args.execute_commands then
        (runStep o args withKws modifier command).1 else []).any
        Event.isShow) = false := by
      by_cases he : args.execute_commands
      · rw [if_pos he, List.any_eq_false]
        intro x hx
        have := List.all_eq_true.mp
          (runStep_no_show o args withKws modifier command) x hx
        simpa using this
      · rw [if_neg he]
        rfl
    rw [List.any_append, hany, Bool.or_false]
    by_cases hs : showCommands args false <;> simp [hs, Event.isShow]
  · unfold showCommands
    rcases hsc : args.show_commands with _ | b
    · by_cases he : args.execute_commands <;> simp [he]
    · cases b <;> simp

/-- Witness for C7 at concrete flags: show unset and dry-run active
prints; show explicitly False under dry-run does not. -/
theorem c7_witness :
    ((processStep ⟨fun _ _ _ => .ok .noneV, fun _ => .ok .noneV,
        fun _ => .ok .noneV⟩ ⟨false, true, none⟩ false false (.desc 0)
        none).1.any Event.isShow = true) ∧
    ((processStep ⟨fun _ _ _ => .ok .noneV, fun _ => .ok .noneV,
        fun _ => .ok .noneV⟩ ⟨false, true, some false⟩ false false (.desc 0)
        none).1.any Event.isShow = false) := by
  constructor
  · rw [(c7_show_guard ⟨fun _ _ _ => .ok .noneV, fun _ => .ok .noneV,
      fun _ => .ok .noneV⟩ ⟨false, true, none⟩ false false (.desc 0)
      none trivial).1]
    rfl
  · rw [(c7_show_guard ⟨fun _ _ _ => .ok .noneV, fun _ => .ok .noneV,
      fun _ => .ok .noneV⟩ ⟨false, true, some false⟩ false false (.desc 0)
      none trivial).1]
    rfl

/-! ### Dry-run (C4) -/

theorem interpListLoop_dry_no_run (o : Oracle) (args : LocalArgs)
    (withKws : Bool) (hdry : args.execute_commands = false)
    (items : List Val) :
    ((interpListLoop o args withKws items).events.all
      (fun e => !e.isRun)) = true := by
  induction items with
  | nil => rfl
  | cons v rest ih =>
    rw [interpListLoop]
    cases hps : processStep o args withKws false v none with
    | mk evs so =>
      have hevs : (evs.all (fun e => !e.isRun)) = true := by
        have h1 := (processStep_dry_shape o args withKws false v none hdry).1
        rw [hps] at h1
        exact h1
      cases so with
      | halt e => exact hevs
      | cont r t =>
        show ((evs ++ (interpListLoop o args withKws rest).events).all
          (fun e => !e.isRun)) = true
        rw [List.all_append, hevs, ih]
        rfl

theorem interpGenLoop_dry_no_run {σ : Type} (o : Oracle) (args : LocalArgs)
    (withKws : Bool) (g : GenM σ) (hdry : args.execute_commands = false) :
    ∀ (fuel : Nat) (s : σ) (result : Option Val) (thrown : Option Exc),
      ((interpGenLoop o args withKws g fuel s result thrown).events.all
        (fun e => !e.isRun)) = true := by
  intro fuel
  induction fuel with
  | zero => intro s r t; rfl
  | succ fuel ih =>
    intro s r t
    cases hstep : g.step s (nextInput r t) with
    | stopped =>
      rw [interpGenLoop_stopped o args withKws g fuel s r t hstep]
      rfl
    | raised e =>
      rw [interpGenLoop_raised o args withKws g fuel s r t e hstep]
      rfl
    | yielded v s2 =>
      rw [interpGenLoop_yielded o args withKws g fuel s r t v s2 hstep]
      cases hps : processStep o args withKws true v t with
      | mk evs so =>
        have hevs : (evs.all (fun e => !e.isRun)) = true := by
          have h1 := (processStep_dry_shape o args withKws true v t hdry).1
          rw [hps] at h1
          exact h1
        cases so with
        | halt e =>
          show ((Event.fed (nextInput r t) :: evs).all
            (fun e => !e.isRun)) = true
          rw [List.all_cons, hevs]
          rfl
        | cont rr tt =>
          show ((Event.fed (nextInput r t) ::
            (evs ++ (interpGenLoop o args withKws g fuel s2 rr
              tt).events)).all (fun e => !e.isRun)) = true
          rw [List.all_cons, List.all_append, hevs, ih s2 rr tt]
          rfl

theorem interpGenLoop_dry_feeds_send {σ : Type} (o : Oracle)
    (args : LocalArgs) (withKws : Bool) (g : GenM σ)
    (hdry : args.execute_commands = false) :
    ∀ (fuel : Nat) (s : σ) (thrown : Option Exc),
      ∃ k, ((interpGenLoop o args withKws g fuel s (some emptyResult)
        thrown).events.filterMap Event.fedInput) =
        List.replicate k (.send emptyResult) := by
  intro fuel
  induction fuel with
  | zero => intro s t; exact ⟨0, rfl⟩
  | succ fuel ih =>
    intro s t
    cases hstep : g.step s (nextInput (some emptyResult) t) with
    | stopped =>
      rw [interpGenLoop_stopped o args withKws g fuel s _ t hstep]
      exact ⟨1, rfl⟩
    | raised e =>
      rw [interpGenLoop_raised o args withKws g fuel s _ t e hstep]
      exact ⟨1, rfl⟩
    | yielded v s2 =>
      rw [interpGenLoop_yielded o args withKws g fuel s _ t v s2 hstep]
      cases hps : processStep o args withKws true v t with
      | mk evs so =>
        have hsh := processStep_dry_shape o args withKws true v t hdry
        have hfed : evs.filterMap Event.fedInput = [] := by
          have h1 := hsh.2.1
          rw [hps] at h1
          exact h1
        cases so with
        | halt e =>
          refine ⟨1, ?_⟩
          show ((Event.fed (nextInput (some emptyResult) t) ::
            evs).filterMap Event.fedInput) =
            List.replicate 1 (GenInput.send emptyResult)
          rw [List.filterMap_cons]
          simp only [Event.fedInput, hfed]
          rfl
        | cont rr tt =>
          have hrr : rr = some emptyResult :=
            hsh.2.2 evs rr tt hps
          subst hrr
          obtain ⟨k, hk⟩ := ih s2 tt
          refine ⟨k + 1, ?_⟩
          show ((Event.fed (nextInput (some emptyResult) t) ::
            (evs ++ (interpGenLoop o args withKws g fuel s2
              (some emptyResult) tt).events)).filterMap Event.fedInput) =
            List.replicate (k + 1) (GenInput.send emptyResult)
          rw [List.filterMap_cons, List.filterMap_append, hfed, hk,
            List.replicate_succ]
          rfl

/-- The possible shapes of `Local.__call__` by case on the delegated
routine's return value. -/
theorem localCall_cases (σ : Type) (o : Oracle) (args : LocalArgs)
    (withKws : Bool) (p : Prepared σ) (fuel : Nat) :
    (∃ items, localCall σ o args withKws p fuel =
      interpListLoop o args withKws items) ∨
    (∃ g : GenM σ, localCall σ o args withKws p fuel =
      interpGenLoop o args withKws g fuel g.start none none) ∨
    localCall σ o args withKws p fuel = ⟨[], .done⟩ ∨
    localCall σ o args withKws p fuel = ⟨[], .failed .typeError⟩ := by
  cases p with
  | gen g => exact .inr (.inl ⟨g, rfl⟩)
  | value v =>
    cases v with
    | noneV => exact .inr (.inr (.inl rfl))
    | intV i => exact .inr (.inr (.inr rfl))
    | desc d => exact .inl ⟨[.desc d], rfl⟩
    | modV m => exact .inr (.inr (.inr rfl))
    | futureV i => exact .inr (.inr (.inr rfl))
    | tup xs =>
      match xs with
      | [] => exact .inl ⟨[], rfl⟩
      | [a] => cases a <;> exact .inl ⟨_, rfl⟩
      | a :: b :: c :: rest => cases a <;> exact .inl ⟨_, rfl⟩
      | [a, b] => cases a <;> exact .inl ⟨_, rfl⟩

/-- C4: with dry-run active (`execute_commands` False), the interpreter
never invokes any process run/spawn operation for any producer, and a
resumable producer is resumed first with `next` and thereafter always
with `send((None, None, None))` — the all-absent result triple is fed
back after each step before the next step is requested. -/
theorem c4_dry_run (o : Oracle) (args : LocalArgs) (withKws : Bool)
    (hdry : args.execute_commands = false) :
    (∀ (σ : Type) (p : Prepared σ) (fuel : Nat),
      ((localCall σ o args withKws p fuel).events.all
        (fun e => !e.isRun)) = true) ∧
    (∀ (σ : Type) (g : GenM σ) (fuel : Nat),
      ((localCall σ o args withKws (.gen g) fuel).events.filterMap
          Event.fedInput = []) ∨
      (∃ k, (localCall σ o args withKws (.gen g) fuel).events.filterMap
          Event.fedInput =
          .nxt :: List.replicate k (.send emptyResult))) := by
  constructor
  · intro σ p fuel
    rcases localCall_cases σ o args withKws p fuel with
      ⟨items, hi⟩ | ⟨g, hg⟩ | hdone | hfail
    · rw [hi]
      exact interpListLoop_dry_no_run o args withKws hdry items
    · rw [hg]
      exact interpGenLoop_dry_no_run o args withKws g hdry fuel g.start
        none none
    · rw [hdone]
      rfl
    · rw [hfail]
      rfl
  · intro σ g fuel
    cases fuel with
    | zero => exact .inl rfl
    | succ fuel =>
      have hcall : localCall σ o args withKws (.gen g) (fuel + 1) =
          interpGenLoop o args withKws g (fuel + 1) g.start none none := rfl
      rw [hcall]
      cases hstep : g.step g.start (nextInput none none) with
      | stopped =>
        rw [interpGenLoop_stopped o args withKws g fuel g.start none none
          hstep]
        exact .inr ⟨0, rfl⟩
      | raised e =>
        rw [interpGenLoop_raised o args withKws g fuel g.start none none e
          hstep]
        exact .inr ⟨0, rfl⟩
      | yielded v s2 =>
        rw [interpGenLoop_yielded o args withKws g fuel g.start none none v
          s2 hstep]
        cases hps : processStep o args withKws true v none with
        | mk evs so =>
          have hsh := processStep_dry_shape o args withKws true v none hdry
          have hfed : evs.filterMap Event.fedInput = [] := by
            have h1 := hsh.2.1
            rw [hps] at h1
            exact h1
          cases so with
          | halt e =>
            refine .inr ⟨0, ?_⟩
            show ((Event.fed (nextInput none none) :: evs).filterMap
              Event.fedInput) = _
            rw [List.filterMap_cons]
            simp only [Event.fedInput, hfed]
            rfl
          | cont rr tt =>
            have hrr : rr = some emptyResult := hsh.2.2 evs rr tt hps
            subst hrr
            obtain ⟨k, hk⟩ := interpGenLoop_dry_feeds_send o args withKws g
              hdry fuel s2 tt
            refine .inr ⟨k, ?_⟩
            show ((Event.fed (nextInput none none) ::
              (evs ++ (interpGenLoop o args withKws g fuel s2
                (some emptyResult) tt).events)).filterMap Event.fedInput) = _
            rw [List.filterMap_cons, List.filterMap_append, hfed, hk]
            rfl

/-- Flags with dry-run active (and defaults otherwise). -/
def dryArgs : LocalArgs := ⟨false, true, none⟩

/-- An inert oracle for witnesses. -/
def oracle0 : Oracle :=
  ⟨fun _ _ _ => .ok .noneV, fun _ => .ok emptyResult,
    fun _ => .ok emptyResult⟩

/-- A producer yielding two descriptors, then finishing. -/
def gen2 : GenM Nat :=
  ⟨0, fun s _ => if s < 2 then .yielded (.desc s) (s + 1) else .stopped⟩

/-- Witness for C4 on a concrete two-step resumable producer. -/
theorem c4_witness :
    ((localCall Nat oracle0 dryArgs false (.gen gen2) 9).events.all
      (fun e => !e.isRun)) = true ∧
    (((localCall Nat oracle0 dryArgs false (.gen gen2) 9).events.filterMap
        Event.fedInput = []) ∨
      (∃ k, (localCall Nat oracle0 dryArgs false (.gen gen2) 9).events.filterMap
          Event.fedInput =
          .nxt :: List.replicate k (.send emptyResult))) :=
  ⟨(c4_dry_run oracle0 dryArgs false rfl).1 Nat (.gen gen2) 9,
   (c4_dry_run oracle0 dryArgs false rfl).2 Nat gen2 9⟩

/-! ### Failure propagation (C5) -/

/-- C5: when a step's execution raises: with a send-capable producer the
exception is recorded (not raised) and injected at the producer's next
suspension point via `iterator.throw` — a producer that catches it and
returns normally completes the loop successfully, one that re-raises
propagates that same condition to the caller; without send capability the
exception propagates out of the interpreter immediately and no remaining
step of the sequence is processed. -/
theorem c5_failure_propagation (o : Oracle) (args : LocalArgs)
    (withKws : Bool) :
    (∀ (σ : Type) (g : GenM σ) (fuel : Nat) (s : σ) (e : Exc),
      (g.step s (.throw e) = .stopped →
        interpGenLoop o args withKws g (fuel + 1) s none (some e) =
          ⟨[.fed (.throw e)], .done⟩) ∧
      (∀ e2, g.step s (.throw e) = .raised e2 →
        interpGenLoop o args withKws g (fuel + 1) s none (some e) =
          ⟨[.fed (.throw e)], .failed e2⟩)) ∧
    (∀ (d : Nat) (e : Exc) (thrown : Option Exc),
      args.execute_commands = true → args.foreground = false →
      o.runRun d = .error e →
      processStep o args withKws true (.desc d) thrown =
        ((if showCommands args false then [Event.showed (.desc d)]
          else []) ++ [Event.ranRun d], .cont none (some e))) ∧
    (∀ (v : Val) (rest : List Val) (evs : List Event) (e : Exc),
      processStep o args withKws false v none = (evs, .halt e) →
      interpListLoop o args withKws (v :: rest) = ⟨evs, .failed e⟩) ∧
    (∀ (d : Nat) (e : Exc),
      args.execute_commands = true → args.foreground = false →
      o.runRun d = .error e →
      processStep o args withKws false (.desc d) none =
        ((if showCommands args false then [Event.showed (.desc d)]
          else []) ++ [Event.ranRun d], .halt e)) := by
  have hrs : ∀ d, args.foreground = false →
      runStep o args withKws none (.desc d) =
        ([Event.ranRun d], o.runRun d) := by
    intro d hfg
    unfold runStep
    rw [hfg]
    rfl
  refine ⟨fun σ g fuel s e => ⟨fun hstep => ?_, fun e2 hstep => ?_⟩,
    fun d e thrown hexec hfg hrun => ?_, fun v rest evs e h => ?_,
    fun d e hexec hfg hrun => ?_⟩
  · exact interpGenLoop_stopped o args withKws g fuel s none (some e) hstep
  · exact interpGenLoop_raised o args withKws g fuel s none (some e) e2
      hstep
  · rw [processStep_eq o args withKws true (.desc d) thrown none (.desc d)
      rfl, hexec, hrs d hfg, hrun]
    rfl
  · rw [interpListLoop, h]
  · rw [processStep_eq o args withKws false (.desc d) none none (.desc d)
      rfl, hexec, hrs d hfg, hrun]
    rfl

/-- Flags with execution on, quiet (non-foreground), and show off. -/
def execArgs : LocalArgs := ⟨true, false, some false⟩

/-- An oracle whose plain runs fail. -/
def oracleFail : Oracle :=
  ⟨fun _ _ _ => .ok .noneV, fun _ => .error (.processError 3),
    fun _ => .error (.processError 3)⟩

/-- A producer that catches an injected exception and returns. -/
def gCatch : GenM Nat :=
  ⟨0, fun s inp =>
    match inp with
    | .throw _ => .stopped
    | _ => .yielded (.desc 0) s⟩

/-- A producer that re-raises an injected exception. -/
def gReraise : GenM Nat :=
  ⟨0, fun s inp =>
    match inp with
    | .throw e => .raised e
    | _ => .yielded (.desc 0) s⟩

/-- Witness for C5 on concrete producers/oracle: catching completes the
loop, re-raising propagates the same condition, and a failing plain run
in a send-less sequence aborts before the remaining step. -/
theorem c5_witness :
    interpGenLoop oracleFail execArgs false gCatch 5 0 none
        (some (.processError 7)) =
      ⟨[.fed (.throw (.processError 7))], .done⟩ ∧
    interpGenLoop oracleFail execArgs false gReraise 5 0 none
        (some (.processError 7)) =
      ⟨[.fed (.throw (.processError 7))], .failed (.processError 7)⟩ ∧
    interpListLoop oracleFail execArgs false [.desc 0, .desc 1] =
      ⟨[Event.ranRun 0], .failed (.processError 3)⟩ :=
  ⟨((c5_failure_propagation oracleFail execArgs false).1 Nat gCatch 4 0
      (.processError 7)).1 rfl,
   ((c5_failure_propagation oracleFail execArgs false).1 Nat gReraise 4 0
      (.processError 7)).2 (.processError 7) rfl,
   (c5_failure_propagation oracleFail execArgs false).2.2.1 (.desc 0)
     [.desc 1] [Event.ranRun 0] (.processError 3) (by exact rfl)⟩

/-! ### Foreground strategy (C8) -/

/-- C8: for a step paired with the Foreground strategy (plumbum's `FG`),
whose boundary behaviour the spec fixes as streaming both output streams
live without capturing them, blocking until exit, and yielding the triple
`(code, None, None)` (hypothesis `hfg`): the interpreter obtains exactly
that triple and feeds it back to the producing routine at its next
resumption. -/
theorem c8_foreground_strategy (o : Oracle) (args : LocalArgs)
    (withKws send : Bool) (d : Nat) (c : Int) (thrown : Option Exc)
    (hexec : args.execute_commands = true)
    (hfg : o.runMod d .fg withKws = .ok (.tup [.intV c, .noneV, .noneV])) :
    (processStep o args withKws send (.tup [.modV .fg, .desc d]) thrown =
      ((if showCommands args false then [Event.showed (.desc d)] else [])
        ++ [Event.ranMod .fg d withKws],
       .cont (some (.tup [.intV c, .noneV, .noneV])) none)) ∧
    (∀ (σ : Type) (g : GenM σ) (fuel : Nat) (s : σ) (t : Option Exc),
      (interpGenLoop o args withKws g (fuel + 1) s
          (some (.tup [.intV c, .noneV, .noneV])) t).events.head? =
        some (.fed (.send (.tup [.intV c, .noneV, .noneV])))) := by
  constructor
  · rw [processStep_eq o args withKws send (.tup [.modV .fg, .desc d])
      thrown (some (.modV .fg)) (.desc d) rfl, hexec]
    have hrs : runStep o args withKws (some (.modV .fg)) (.desc d) =
        ([Event.ranMod .fg d withKws],
          .ok (.tup [.intV c, .noneV, .noneV])) := by
      show ([Event.ranMod .fg d withKws],
        (match o.runMod d .fg withKws with
         | .ok .noneV => .ok emptyResult
         | r => r : Except Exc Val)) = _
      rw [hfg]
    rw [hrs]
    rfl
  · intro σ g fuel s t
    cases hstep : g.step s
        (nextInput (some (.tup [.intV c, .noneV, .noneV])) t) with
    | stopped =>
      rw [interpGenLoop_stopped o args withKws g fuel s _ t hstep]
      rfl
    | raised e =>
      rw [interpGenLoop_raised o args withKws g fuel s _ t e hstep]
      rfl
    | yielded v s2 =>
      rw [interpGenLoop_yielded o args withKws g fuel s _ t v s2 hstep]
      cases hps : processStep o args withKws true v t with
      | mk evs so => cases so <;> rfl

/-- An oracle whose Foreground runs exit with code 0 and, per the spec's
collaborator boundary, captured streams absent. -/
def fgOracle : Oracle :=
  ⟨fun _ _ _ => .ok (.tup [.intV 0, .noneV, .noneV]),
    fun _ => .ok emptyResult, fun _ => .ok emptyResult⟩

/-- Witness for C8 at a concrete Foreground-paired step. -/
theorem c8_witness :
    processStep fgOracle execArgs false false (.tup [.modV .fg, .desc 0])
        none =
      ([Event.ranMod .fg 0 false],
        .cont (some (.tup [.intV 0, .noneV, .noneV])) none) := by
  exact (c8_foreground_strategy fgOracle execArgs false false 0 0 none rfl
    rfl).1

/-! ### Step shape discrimination (C9) -/

/-- Flags with execution on, foreground on (default), and show off. -/
def args9 : LocalArgs := ⟨true, true, some false⟩

/-- C9 counterexample: the item `(7, descriptor)` — a two-element tuple
whose first element is neither an execution modifier nor `None` — is not
treated as a bare descriptor under the default strategy, as the claim's
"otherwise" branch asserts: it is unpacked as a (strategy, descriptor)
pair and its run fails with a `TypeError` (`command & 7`), the
descriptor never running.  A bare descriptor item, by contrast, IS run
under the default (foreground) strategy (second conjunct), and a pair
with a `None` first element behaves exactly like the bare descriptor
(third conjunct), per the source's `modifier is not None` test. -/
theorem c9_counterexample :
    interpListLoop oracle0 args9 false [.tup [.intV 7, .desc 0]] =
      ⟨[], .failed .typeError⟩ ∧
    interpListLoop oracle0 args9 false [.desc 0] =
      ⟨[Event.ranTee 0], .done⟩ ∧
    interpListLoop oracle0 args9 false [.tup [.noneV, .desc 0]] =
      ⟨[Event.ranTee 0], .done⟩ := ⟨rfl, rfl, rfl⟩

/-- C9 amended: every two-element tuple/list item is unpacked as
`(strategy, descriptor)` unconditionally; the only check applied to the
unpacked first element is `modifier is not None`, so a `None` first
element runs the descriptor under the default strategy exactly like a
non-tuple item, while a first element that is neither `None` nor a
recognized execution modifier fails at execution time with a `TypeError`
rather than being run under the default strategy; the closed-set
modifier instance check applies only to the routine's whole return
value, deciding whether a single `(modifier, descriptor)` pair is
wrapped as a one-step sequence. -/
theorem c9_amended (o : Oracle) (args : LocalArgs) (withKws send : Bool)
    (σ : Type) (fuel : Nat) (a b : Val) (m : Modifier) (d : Nat)
    (thrown : Option Exc) :
    (unpackItem (.tup [.noneV, b]) = .ok (none, b)) ∧
    (a ≠ .noneV → unpackItem (.tup [a, b]) = .ok (some a, b)) ∧
    (unpackItem (.desc d) = .ok (none, .desc d)) ∧
    (localCall σ o args withKws (.value (.tup [.modV m, b])) fuel =
      interpListLoop o args withKws [.tup [.modV m, b]]) ∧
    ((∀ m2, a ≠ .modV m2) →
      localCall σ o args withKws (.value (.tup [a, b])) fuel =
        interpListLoop o args withKws [a, b]) ∧
    ((args.execute_commands = true → args.foreground = true →
      processStep o args withKws send (.desc d) thrown =
        ((if showCommands args false then [Event.showed (.desc d)] else [])
          ++ [Event.ranTee d],
         match o.runTee d with
         | .ok r => .cont (some r) none
         | .error e => if send then .cont none (some e) else .halt e)) ∧
      processStep o args withKws send (.tup [.noneV, .desc d]) thrown =
        processStep o args withKws send (.desc d) thrown) ∧
    (args.execute_commands = true → a ≠ .noneV → (∀ m2, a ≠ .modV m2) →
      processStep o args withKws send (.tup [a, b]) thrown =
        ((if showCommands args false then [Event.showed b] else []),
          if send then .cont none (some .typeError)
          else .halt .typeError)) := by
  refine ⟨rfl, fun hne => ?_, rfl, rfl, fun ha => ?_,
    ⟨fun hexec hfg => ?_, rfl⟩, fun hexec hne ha => ?_⟩
  · cases a with
    | noneV => exact absurd rfl hne
    | modV m2 => rfl
    | intV i => rfl
    | desc dd => rfl
    | tup ys => rfl
    | futureV i => rfl
  · cases a with
    | modV m2 => exact absurd rfl (ha m2)
    | noneV => rfl
    | intV i => rfl
    | desc dd => rfl
    | tup ys => rfl
    | futureV i => rfl
  · rw [processStep_eq o args withKws send (.desc d) thrown none (.desc d)
      rfl, hexec]
    have hrs : runStep o args withKws none (.desc d) =
        ([Event.ranTee d], o.runTee d) := by
      unfold runStep
      rw [hfg]
      rfl
    rw [hrs]
    cases hrt : o.runTee d with
    | ok r => rfl
    | error e => cases send <;> rfl
  · have hu : unpackItem (.tup [a, b]) = .ok (some a, b) := by
      cases a with
      | noneV => exact absurd rfl hne
      | modV m2 => rfl
      | intV i => rfl
      | desc dd => rfl
      | tup ys => rfl
      | futureV i => rfl
    have hrs2 : runStep o args withKws (some a) b =
        ([], .error .typeError) := by
      cases a with
      | noneV => exact absurd rfl hne
      | modV m2 => exact absurd rfl (ha m2)
      | intV i => rfl
      | desc dd => rfl
      | tup ys => rfl
      | futureV i => rfl
    rw [processStep_eq o args withKws send (.tup [a, b]) thrown (some a) b
      hu, hexec, hrs2]
    cases send <;> simp

/-- Witness for the amended C9 at concrete inputs. -/
theorem c9_amended_witness :
    localCall Nat oracle0 args9 false (.value (.tup [.intV 7, .desc 0])) 3 =
      interpListLoop oracle0 args9 false [.intV 7, .desc 0] ∧
    processStep oracle0 args9 false false (.tup [.intV 7, .desc 0]) none =
      ([], .halt .typeError) := by
  have h := c9_amended oracle0 args9 false false Nat 3 (.intV 7) (.desc 0)
    .fg 0 none
  have hne : (Val.intV 7) ≠ Val.noneV := by
    intro hx
    exact Val.noConfusion hx
  have hnm : ∀ m2, (Val.intV 7) ≠ Val.modV m2 := by
    intro m2 hx
    exact Val.noConfusion hx
  exact ⟨h.2.2.2.2.1 hnm, by exact h.2.2.2.2.2.2 rfl hne hnm⟩

end Argcmdr
